import Mathlib

/-!
Verification development for the thanos-parquet-gateway sources:
`cmd/config.go` (process wiring: bucket selection, periodic discovery,
meta-filter and syncer setup, internal HTTP API) and
`convert/convert_test.go` (the converter end-to-end test).  The converter
and the `locate` package are not part of the available sources; where a
property depends on them they are modelled from the specification, as
marked in the corresponding doc comments.
-/

namespace PG

/-- Error values produced by the Go code are modelled as their message strings. -/
abbrev Err := String

/-- Decimal digit character, as produced by the Go `fmt` package for a digit `n < 10`. -/
def digitChar (n : Nat) : Char :=
  match n with
  | 0 => '0' | 1 => '1' | 2 => '2' | 3 => '3' | 4 => '4'
  | 5 => '5' | 6 => '6' | 7 => '7' | 8 => '8' | _ => '9'

/-- Fuel-driven decimal digit expansion of a natural number (most significant first). -/
def natDigits : Nat → Nat → List Char
  | 0, _ => []
  | f + 1, n =>
    if n < 10 then [digitChar n]
    else natDigits f (n / 10) ++ [digitChar (n % 10)]

/-- Decimal rendering of a natural number, as Go `fmt.Sprintf("%d", n)` produces it. -/
def natToStr (n : Nat) : String := String.mk (natDigits (n + 1) n)

/-- Reads a decimal string back into a number; used to invert `natToStr` on small inputs. -/
def parseNat (s : String) : Nat :=
  s.data.foldl (fun acc c => acc * 10 + (c.toNat - 48)) 0

/-- ASCII upper-casing of a string, as Go `strings.ToUpper` behaves on ASCII input. -/
def upper (s : String) : String := String.mk (s.data.map Char.toUpper)

/-!
Embedding of `cmd/config.go`.  Go contexts are modelled by the one
observable the claims are about: the remaining-time deadline installed by
`context.WithTimeout`.  The effectful collaborators from the `locate`
package (`Discoverer.Discover`, `ThanosBackfillMetaFilter.Update`,
`Syncer.Sync`) are parameters: a function from the iteration number
(0 is the synchronous bootstrap run, `n + 1` the n-th periodic run) and
the context it is called under to `none` (success) or `some e` (failure).
-/

/-- A Go context, reduced to its optional timeout (remaining time). -/
structure Ctx where
  timeout : Option Nat
deriving DecidableEq

/-- Context with no deadline, as `context.Background()` yields. -/
def background : Ctx := { timeout := none }

/-- Effect of `context.WithTimeout(parent, d)`: the effective deadline is the
parent deadline capped by `d`. -/
def withTimeout (c : Ctx) (d : Nat) : Ctx :=
  { timeout := match c.timeout with
    | none => some d
    | some t => some (min t d) }

/-- Observable behaviour of one iteration of the closure each setup function
passes to `runutil.Repeat`: the context it ran the work under, the warning it
logged (if the work failed) and the value it returned to `Repeat`. -/
structure IterTrace where
  ctxTimeout : Option Nat
  warned : Option Err
  returned : Option Err
deriving DecidableEq

/-- A periodic loop registered with the `run.Group`, described by its interval
and by the trace of each of its iterations. -/
structure StartedLoop where
  interval : Nat
  iterate : Nat → IterTrace

/-- Body of the closure passed to `runutil.Repeat` in `setupDiscovery`,
`setupTSDBDiscovery`, `setupMetaFilter` and `setupSyncer`: derive a timeout
context from the loop context (`context.WithCancel(context.Background())`,
so no parent deadline), run the work, log a warning on failure, return nil. -/
def periodicIter (interval : Nat) (work : Ctx → Option Err) : IterTrace :=
  { ctxTimeout := (withTimeout background interval).timeout
    warned := work (withTimeout background interval)
    returned := none }

/-- Context the initial synchronous run is executed under in each setup
function: `context.WithTimeout(ctx, interval)` applied to the incoming
context. -/
def bootstrapCtx (ctx : Ctx) (interval : Nat) : Ctx := withTimeout ctx interval

/-- Embedding of `setupDiscovery` from `cmd/config.go`: run `Discover` once
synchronously under a timeout context; on failure return the wrapped error,
otherwise register the periodic discovery loop. -/
def setupDiscovery (ctx : Ctx) (interval : Nat) (discover : Nat → Ctx → Option Err) :
    Except Err StartedLoop :=
  match discover 0 (bootstrapCtx ctx interval) with
  | some e => .error ("unable to run initial discovery: " ++ e)
  | none => .ok
      { interval := interval
        iterate := fun n => periodicIter interval (discover (n + 1)) }

/-- Embedding of `setupTSDBDiscovery` from `cmd/config.go`; structurally
identical to `setupDiscovery`, including the wrapped error message. -/
def setupTSDBDiscovery (ctx : Ctx) (interval : Nat) (discover : Nat → Ctx → Option Err) :
    Except Err StartedLoop :=
  match discover 0 (bootstrapCtx ctx interval) with
  | some e => .error ("unable to run initial discovery: " ++ e)
  | none => .ok
      { interval := interval
        iterate := fun n => periodicIter interval (discover (n + 1)) }

/-- Which meta filter `setupMetaFilter` selected. -/
inductive MetaFilterChoice where
  | allMetas
  | thanosBackfill
deriving DecidableEq

/-- Result of `setupMetaFilter`: the selected filter and, for the
thanos-backfill filter only, the periodic update loop it registered. -/
structure MetaFilterResult where
  choice : MetaFilterChoice
  updateLoop : Option StartedLoop

/-- Embedding of `setupMetaFilter` from `cmd/config.go`: dispatch on the
configured filter type; `all-metas` returns the accept-all filter without
registering anything; `thanos-backfill` runs `Update` once synchronously
under a timeout context (failure is fatal) and registers the periodic
update loop; any other name is rejected. -/
def setupMetaFilter (ctx : Ctx) (filterType : String) (updateInterval : Nat)
    (update : Nat → Ctx → Option Err) : Except Err MetaFilterResult :=
  match filterType with
  | "all-metas" => .ok { choice := .allMetas, updateLoop := none }
  | "thanos-backfill" =>
    match update 0 (bootstrapCtx ctx updateInterval) with
    | some e => .error ("unable to initialize thanos-backfill meta filter: " ++ e)
    | none => .ok
        { choice := .thanosBackfill
          updateLoop := some
            { interval := updateInterval
              iterate := fun n => periodicIter updateInterval (update (n + 1)) } }
  | other => .error ("unknown meta filter type: " ++ other)

/-- Embedding of `setupSyncer` from `cmd/config.go`: run `Sync` once
synchronously under a timeout context; on failure return the wrapped error,
otherwise register the periodic sync loop. -/
def setupSyncer (ctx : Ctx) (interval : Nat) (sync : Nat → Ctx → Option Err) :
    Except Err StartedLoop :=
  match sync 0 (bootstrapCtx ctx interval) with
  | some e => .error ("unable to run initial sync: " ++ e)
  | none => .ok
      { interval := interval
        iterate := fun n => periodicIter interval (sync (n + 1)) }

/-- Object-storage backend selected by `setupBucket`. -/
inductive BucketBackend where
  | filesystem
  | s3
deriving DecidableEq

/-- Embedding of the backend dispatch in `setupBucket` from `cmd/config.go`:
the configured storage string is upper-cased (`strings.ToUpper`), then matched
against the known providers; unknown names are rejected with the upper-cased
name in the error. -/
def setupBucket (storage : String) : Except Err BucketBackend :=
  match upper storage with
  | "FILESYSTEM" => .ok .filesystem
  | "S3" => .ok .s3
  | other => .error ("unknown bucket type: " ++ other)

/-!
Model of the Block Conversion Engine.  The converter implementation
(package `convert`, the columnar writer, and package `locate`) is not in
the available sources; only its end-to-end test is.  The definitions below
are therefore modelled from the specification (sections 3, 4.1 and 8),
with the configuration surface taken from the options the test passes
(`SortBy`, `RowGroupSize`, `RowGroupCount`, `LabelPageBufferSize`).
-/

/-- One time series of a source block: its label set and the references to
its compressed sample chunks within the day. -/
structure Series where
  lset : List (String × String)
  chunks : List Nat
deriving DecidableEq

/-- Looks a label name up in a label set, returning its value when present. -/
def lookupLabel (name : String) : List (String × String) → Option String
  | [] => none
  | (k, v) :: rest => if k = name then some v else lookupLabel name rest

/-- Boolean lexicographic comparison of string lists, used as the total
order the converter sorts rows by. -/
def lexLe : List String → List String → Bool
  | [], _ => true
  | _ :: _, [] => false
  | a :: as, b :: bs => if a = b then lexLe as bs else decide (a ≤ b)

/-- Modelled from the spec: the sort key of a series under a configured
ordered list of label names, extended by the flattened label set as the
stable secondary key ("ties broken by series label set lexicographic
order"); a label the series lacks contributes the empty string. -/
def seriesKey (sortBy : List String) (s : Series) : List String :=
  sortBy.map (fun n => (lookupLabel n s.lset).getD "") ++
    s.lset.flatMap (fun p => [p.1, p.2])

/-- Comparison the converter sorts by: lexicographic on `seriesKey`. -/
def seriesLe (sortBy : List String) (a b : Series) : Bool :=
  lexLe (seriesKey sortBy a) (seriesKey sortBy b)

/-- Modelled from the spec: step 1 of the conversion algorithm,
"deduplicate by identical label set, merging their chunks". -/
def dedupSeries : List Series → List Series
  | [] => []
  | s :: rest =>
    { lset := s.lset
      chunks := s.chunks ++
        ((rest.filter (fun t => decide (t.lset = s.lset))).map Series.chunks).flatten } ::
      dedupSeries (rest.filter (fun t => !decide (t.lset = s.lset)))
termination_by l => l.length
decreasing_by
  simp only [List.length_cons]
  exact Nat.lt_succ_of_le (List.length_filter_le _ _)

/-- Splits a list into consecutive chunks of `k` elements (the last chunk
may be shorter); a zero chunk size degenerates to a single chunk. -/
def chunkList (k : Nat) (l : List α) : List (List α) :=
  match l with
  | [] => []
  | x :: xs =>
    if k = 0 then [x :: xs]
    else (x :: xs).take k :: chunkList k ((x :: xs).drop k)
termination_by l.length
decreasing_by
  simp only [List.length_drop, List.length_cons]
  omega

/-- Byte size a label value contributes to the page buffer; a missing
value contributes nothing. -/
def valBytes (v : Option String) : Nat := (v.getD "").length

/-- Modelled from the spec: page splitting of one label column of a row
group, flushing a page boundary whenever the buffered byte size exceeds
the configured label-page buffer threshold. -/
def paginateGo (buf : Nat) (cur : List (Option String)) (curBytes : Nat) :
    List (Option String) → List (List (Option String))
  | [] => if cur = [] then [] else [cur]
  | v :: rest =>
    if buf < curBytes + valBytes v then
      (cur ++ [v]) :: paginateGo buf [] 0 rest
    else
      paginateGo buf (cur ++ [v]) (curBytes + valBytes v) rest

/-- Pages of a column of values under a given page-buffer threshold. -/
def paginate (buf : Nat) (vals : List (Option String)) : List (List (Option String)) :=
  paginateGo buf [] 0 vals

/-- Value a stored label cell sorts and aggregates as: its string when
present, the empty string when null. -/
def cellStr (v : Option String) : String := v.getD ""

/-- Minimum statistic of a page of label values. -/
def pageMin (p : List (Option String)) : String :=
  match p.map cellStr with
  | [] => ""
  | x :: xs => xs.foldl min x

/-- Maximum statistic of a page of label values. -/
def pageMax (p : List (Option String)) : String :=
  match p.map cellStr with
  | [] => ""
  | x :: xs => xs.foldl max x

/-- One row group of a label file: the label sets of its rows, in row order. -/
structure LabelRowGroup where
  rows : List (List (String × String))
deriving DecidableEq

/-- One row group of a chunk file: the chunk references of its rows, in row order. -/
structure ChunkRowGroup where
  rows : List (List Nat)
deriving DecidableEq

/-- A label file: its row groups. -/
structure LabelFile where
  rowGroups : List LabelRowGroup
deriving DecidableEq

/-- A chunk file: its row groups. -/
structure ChunkFile where
  rowGroups : List ChunkRowGroup
deriving DecidableEq

/-- Number of rows of a label file, summed over its row groups. -/
def LabelFile.numRows (f : LabelFile) : Nat :=
  (f.rowGroups.map (fun rg => rg.rows.length)).sum

/-- Number of rows of a chunk file, summed over its row groups. -/
def ChunkFile.numRows (f : ChunkFile) : Nat :=
  (f.rowGroups.map (fun rg => rg.rows.length)).sum

/-- The paired files of one shard. -/
structure ShardFiles where
  labelFile : LabelFile
  chunkFile : ChunkFile
deriving DecidableEq

/-- The Meta record committed last by a conversion: block name and shard count. -/
structure Meta where
  name : String
  shards : Nat
deriving DecidableEq

/-- Configuration of one conversion, mirroring the options the reference
test passes: sort key, row-group row count, row groups per shard, and the
label-page buffer threshold. -/
structure ConvertOpts where
  sortBy : List String
  rowGroupSize : Nat
  rowGroupCount : Nat
  pageBufferSize : Nat

/-- Result of one conversion: the Meta record and the per-shard file pairs. -/
structure ConvertOutput where
  meta : Meta
  shardFiles : List ShardFiles

/-- Modelled from the spec: rows a shard can hold, `RowGroupCount` row
groups of at most `RowGroupSize` rows each. -/
def ConvertOpts.shardSize (opts : ConvertOpts) : Nat :=
  opts.rowGroupSize * opts.rowGroupCount

/-- Modelled from the spec: the file pair of one shard, built from the
shard's rows; the label file and the chunk file use the same row-group
boundaries and the same row order. -/
def mkShardFiles (opts : ConvertOpts) (rows : List Series) : ShardFiles :=
  { labelFile :=
      { rowGroups := (chunkList opts.rowGroupSize rows).map
          (fun rg => { rows := rg.map Series.lset }) }
    chunkFile :=
      { rowGroups := (chunkList opts.rowGroupSize rows).map
          (fun rg => { rows := rg.map Series.chunks }) } }

/-- Modelled from the spec: `ConvertTSDBBlock` for one day (packages
`convert` and the columnar writer are not in the sources).  Deduplicates
the enumerated series by label set, sorts them by the configured sort key
with the label set as stable secondary key, partitions them into
consecutive shards of `shardSize` rows, and emits one file pair per shard
together with the Meta record naming the day and the shard count. -/
def convert (day : Nat) (opts : ConvertOpts) (input : List Series) : ConvertOutput :=
  let sorted := (dedupSeries input).mergeSort (seriesLe opts.sortBy)
  let shardRows := chunkList opts.shardSize sorted
  { meta := { name := "meta-" ++ natToStr day, shards := shardRows.length }
    shardFiles := shardRows.map (mkShardFiles opts) }

/-- One object stored in the bucket, as far as discovery is concerned. -/
inductive BucketEntry where
  | labelFile (block : String) (shard : Nat)
  | chunkFile (block : String) (shard : Nat)
  | metaFile (m : Meta)
deriving DecidableEq

/-- Modelled from the spec: committing a conversion writes the shard file
pairs and then, last, the Meta record. -/
def writeConvertOutput (out : ConvertOutput) (bkt : List BucketEntry) : List BucketEntry :=
  bkt ++
    (List.range out.meta.shards).flatMap
      (fun i => [.labelFile out.meta.name i, .chunkFile out.meta.name i]) ++
    [.metaFile out.meta]

/-- Modelled from the spec: the Discoverer lists the bucket and parses the
objects matching the Meta-file naming convention. -/
def discoveredMetas (bkt : List BucketEntry) : List Meta :=
  bkt.filterMap (fun e => match e with | .metaFile m => some m | _ => none)

/-- Modelled from the spec: `locate.AllMetasMetaFilter` (package `locate`
is not in the sources), the accept-all meta filter: "identity function; no
external state; never fails". -/
def allMetasFilter (metas : List Meta) : List Meta := metas

/-- Labels of the i-th synthetic series of the reference test
`TestConverter`: metric name `foo_(i/10)` and one extra label
`col_(i/100)` holding `2*i`. -/
def testLset (i : Nat) : List (String × String) :=
  [("__name__", "foo_" ++ natToStr (i / 10)),
   ("col_" ++ natToStr (i / 100), natToStr (2 * i))]

/-- The i-th synthetic series of the reference test. -/
def testSeries (i : Nat) : Series :=
  { lset := testLset i, chunks := [i] }

/-- The 1,000 distinct synthetic series the reference test appends. -/
def testInput : List Series := (List.range 1000).map testSeries

/-- Conversion options the reference test passes: sort by `__name__`,
250-row row groups, 2 row groups per shard, 1 KiB label-page buffer. -/
def testOpts : ConvertOpts :=
  { sortBy := ["__name__"], rowGroupSize := 250, rowGroupCount := 2,
    pageBufferSize := 1024 }

/-!
Order-theoretic facts about the sort comparison.
-/

theorem lexLe_trans : ∀ (a b c : List String),
    lexLe a b = true → lexLe b c = true → lexLe a c = true
  | [], _, _, _, _ => rfl
  | _ :: _, [], _, hab, _ => by simp [lexLe] at hab
  | _ :: _, _ :: _, [], _, hbc => by simp [lexLe] at hbc
  | x :: as, y :: bs, z :: cs, hab, hbc => by
    simp only [lexLe] at hab hbc ⊢
    by_cases hxy : x = y
    · subst hxy
      by_cases hxz : x = z
      · subst hxz
        simp only [if_pos rfl] at hab hbc ⊢
        exact lexLe_trans as bs cs hab hbc
      · simp only [if_pos rfl] at hab
        simp only [if_neg hxz] at hbc ⊢
        exact hbc
    · simp only [if_neg hxy] at hab
      by_cases hyz : y = z
      · subst hyz
        simp only [if_neg hxy]
        exact hab
      · simp only [if_neg hyz] at hbc
        have hxltz : x < z :=
          lt_of_lt_of_le (lt_of_le_of_ne (of_decide_eq_true hab) hxy) (of_decide_eq_true hbc)
        simp only [if_neg (ne_of_lt hxltz)]
        exact decide_eq_true (le_of_lt hxltz)

theorem lexLe_total : ∀ (a b : List String), (lexLe a b || lexLe b a) = true
  | [], _ => by simp [lexLe]
  | _ :: _, [] => by simp [lexLe]
  | x :: as, y :: bs => by
    simp only [lexLe]
    by_cases hxy : x = y
    · subst hxy
      simp only [if_pos rfl]
      exact lexLe_total as bs
    · simp only [if_neg hxy, if_neg (Ne.symm hxy), Bool.or_eq_true]
      rcases le_total x y with h | h
      · exact Or.inl (decide_eq_true h)
      · exact Or.inr (decide_eq_true h)

theorem lexLe_head {x y : String} {as bs : List String}
    (h : lexLe (x :: as) (y :: bs) = true) : x ≤ y := by
  simp only [lexLe] at h
  by_cases hxy : x = y
  · exact le_of_eq hxy
  · simp only [if_neg hxy] at h
    exact of_decide_eq_true h

theorem seriesLe_trans (sortBy : List String) (a b c : Series)
    (hab : seriesLe sortBy a b = true) (hbc : seriesLe sortBy b c = true) :
    seriesLe sortBy a c = true :=
  lexLe_trans _ _ _ hab hbc

theorem seriesLe_total (sortBy : List String) (a b : Series) :
    (seriesLe sortBy a b || seriesLe sortBy b a) = true :=
  lexLe_total _ _

/-- Projection of the sort comparison to the first sort label: comparing two
series whose key starts with that label value bounds the label values. -/
theorem seriesLe_head {name : String} {rest : List String} {a b : Series}
    (h : seriesLe (name :: rest) a b = true) :
    cellStr (lookupLabel name a.lset) ≤ cellStr (lookupLabel name b.lset) := by
  simp only [seriesLe, seriesKey, List.map_cons, List.cons_append] at h
  exact lexLe_head h

theorem foldl_min_mem : ∀ (xs : List String) (x : String), xs.foldl min x ∈ x :: xs
  | [], x => by simp
  | y :: ys, x => by
    have h := foldl_min_mem ys (min x y)
    have hstep : List.foldl min x (y :: ys) = List.foldl min (min x y) ys := by
      simp [List.foldl_cons]
    rw [hstep]
    rcases List.mem_cons.mp h with h | h
    · rcases min_choice x y with hc | hc
      · rw [h, hc]; exact List.mem_cons_self _ _
      · rw [h, hc]; exact List.mem_cons_of_mem _ (List.mem_cons_self _ _)
    · exact List.mem_cons_of_mem _ (List.mem_cons_of_mem _ h)

theorem foldl_max_mem : ∀ (xs : List String) (x : String), xs.foldl max x ∈ x :: xs
  | [], x => by simp
  | y :: ys, x => by
    have h := foldl_max_mem ys (max x y)
    have hstep : List.foldl max x (y :: ys) = List.foldl max (max x y) ys := by
      simp [List.foldl_cons]
    rw [hstep]
    rcases List.mem_cons.mp h with h | h
    · rcases max_choice x y with hc | hc
      · rw [h, hc]; exact List.mem_cons_self _ _
      · rw [h, hc]; exact List.mem_cons_of_mem _ (List.mem_cons_self _ _)
    · exact List.mem_cons_of_mem _ (List.mem_cons_of_mem _ h)

/-- The minimum statistic of a nonempty page is the stored value of one of
its cells. -/
theorem pageMin_mem {p : List (Option String)} (h : p ≠ []) :
    ∃ v ∈ p, cellStr v = pageMin p := by
  match p with
  | [] => exact absurd rfl h
  | v :: vs =>
    have hm : (vs.map cellStr).foldl min (cellStr v) ∈ cellStr v :: vs.map cellStr :=
      foldl_min_mem _ _
    have hmem : pageMin (v :: vs) ∈ (v :: vs).map cellStr := by
      simpa [pageMin] using hm
    rcases List.mem_map.mp hmem with ⟨w, hw, hweq⟩
    exact ⟨w, hw, hweq⟩

/-- The maximum statistic of a nonempty page is the stored value of one of
its cells. -/
theorem pageMax_mem {p : List (Option String)} (h : p ≠ []) :
    ∃ v ∈ p, cellStr v = pageMax p := by
  match p with
  | [] => exact absurd rfl h
  | v :: vs =>
    have hm : (vs.map cellStr).foldl max (cellStr v) ∈ cellStr v :: vs.map cellStr :=
      foldl_max_mem _ _
    have hmem : pageMax (v :: vs) ∈ (v :: vs).map cellStr := by
      simpa [pageMax] using hm
    rcases List.mem_map.mp hmem with ⟨w, hw, hweq⟩
    exact ⟨w, hw, hweq⟩

/-!
Correctness of the decimal rendering: parsing inverts it, so it is
injective and the synthetic test series are pairwise distinct.
-/

/-- One step of decimal parsing. -/
def parseStep (acc : Nat) (c : Char) : Nat := acc * 10 + (c.toNat - 48)

theorem digitChar_toNat : ∀ n, n < 10 → (digitChar n).toNat = 48 + n := by decide

theorem natDigits_parse :
    ∀ (fuel n : Nat), n < fuel → (natDigits fuel n).foldl parseStep 0 = n := by
  intro fuel
  induction fuel with
  | zero => intro n hn; omega
  | succ f ih =>
    intro n hn
    rw [natDigits]
    by_cases h10 : n < 10
    · simp only [if_pos h10, List.foldl_cons, List.foldl_nil, parseStep]
      rw [digitChar_toNat n h10]
      omega
    · simp only [if_neg h10, List.foldl_append, List.foldl_cons, List.foldl_nil, parseStep]
      have hdiv : n / 10 < f := by
        have hlt : n / 10 < n := Nat.div_lt_self (by omega) (by omega)
        omega
      rw [ih (n / 10) hdiv]
      rw [digitChar_toNat (n % 10) (Nat.mod_lt n (by omega))]
      omega

theorem parseNat_natToStr (n : Nat) : parseNat (natToStr n) = n :=
  natDigits_parse (n + 1) n (Nat.lt_succ_self n)

theorem natToStr_injective : Function.Injective natToStr := by
  intro a b h
  have ha := parseNat_natToStr a
  have hb := parseNat_natToStr b
  rw [h] at ha
  rw [hb] at ha
  exact ha.symm

theorem testLset_injective : Function.Injective testLset := by
  intro i j h
  simp only [testLset, List.cons.injEq, Prod.mk.injEq, and_true] at h
  have h2 : natToStr (2 * i) = natToStr (2 * j) := h.2.2
  have := natToStr_injective h2
  omega

theorem testInput_lset_nodup : (testInput.map Series.lset).Nodup := by
  have heq : testInput.map Series.lset = (List.range 1000).map testLset := by
    simp only [testInput, List.map_map]
    rfl
  rw [heq]
  exact (List.nodup_map_iff testLset_injective).mpr (List.nodup_range 1000)

/-!
Structural facts about chunking, pagination and deduplication.
-/

theorem chunkList_cons {k : Nat} (hk : k ≠ 0) (x : α) (xs : List α) :
    chunkList k (x :: xs) = (x :: xs).take k :: chunkList k ((x :: xs).drop k) := by
  rw [chunkList]
  simp [hk]

/-- Every chunk produced by `chunkList` is a sublist of the input. -/
theorem sublist_of_mem_chunkList {k : Nat} {l p : List α}
    (hmem : p ∈ chunkList k l) : p.Sublist l := by
  suffices h : ∀ (n : Nat) (l : List α), l.length = n →
      ∀ p, p ∈ chunkList k l → p.Sublist l by
    exact h l.length l rfl p hmem
  intro n
  induction n using Nat.strong_induction_on with
  | _ n ih =>
    intro l hn p hp
    match l with
    | [] => simp [chunkList] at hp
    | x :: xs =>
      by_cases hk : k = 0
      · subst hk
        rw [chunkList] at hp
        simp at hp
        simp [hp]
      · rw [chunkList_cons hk] at hp
        rcases List.mem_cons.mp hp with h | h
        · rw [h]; exact List.take_sublist _ _
        · have hlen : ((x :: xs).drop k).length < n := by
            subst hn
            simp only [List.length_drop, List.length_cons]
            omega
          exact (ih _ hlen _ rfl _ h).trans (List.drop_sublist _ _)

/-- Concatenating the chunks of `chunkList` recovers the input list. -/
theorem chunkList_flatten {k : Nat} (l : List α) :
    (chunkList k l).flatten = l := by
  suffices h : ∀ (n : Nat) (l : List α), l.length = n → (chunkList k l).flatten = l by
    exact h l.length l rfl
  intro n
  induction n using Nat.strong_induction_on with
  | _ n ih =>
    intro l hn
    match l with
    | [] => simp [chunkList]
    | x :: xs =>
      by_cases hk : k = 0
      · subst hk
        rw [chunkList]
        simp
      · rw [chunkList_cons hk]
        have hlen : ((x :: xs).drop k).length < n := by
          subst hn
          simp only [List.length_drop, List.length_cons]
          omega
        simp only [List.flatten_cons, ih _ hlen _ rfl]
        exact List.take_append_drop _ _

/-- Flattening the pages produced by the page splitter recovers the buffered
prefix followed by the remaining values. -/
theorem paginateGo_flatten (buf : Nat) :
    ∀ (vals cur : List (Option String)) (b : Nat),
      (paginateGo buf cur b vals).flatten = cur ++ vals
  | [], cur, b => by
    by_cases h : cur = []
    · simp [paginateGo, h]
    · simp [paginateGo, h]
  | v :: rest, cur, b => by
    simp only [paginateGo]
    by_cases h : buf < b + valBytes v
    · simp only [if_pos h, List.flatten_cons, paginateGo_flatten buf rest [] 0]
      simp
    · simp only [if_neg h, paginateGo_flatten buf rest (cur ++ [v]) (b + valBytes v)]
      simp

/-- Flattening the pages of a column recovers the column values. -/
theorem paginate_flatten (buf : Nat) (vals : List (Option String)) :
    (paginate buf vals).flatten = vals :=
  paginateGo_flatten buf vals [] 0

/-- The page splitter never emits an empty page. -/
theorem ne_nil_of_mem_paginateGo (buf : Nat) :
    ∀ (vals cur : List (Option String)) (b : Nat) (p : List (Option String)),
      p ∈ paginateGo buf cur b vals → p ≠ []
  | [], cur, b, p => by
    by_cases h : cur = []
    · simp [paginateGo, h]
    · simp only [paginateGo, if_neg h, List.mem_singleton]
      intro hp
      rw [hp]
      exact h
  | v :: rest, cur, b, p => by
    simp only [paginateGo]
    by_cases h : buf < b + valBytes v
    · simp only [if_pos h, List.mem_cons]
      intro hp
      rcases hp with hp | hp
      · rw [hp]; simp
      · exact ne_nil_of_mem_paginateGo buf rest [] 0 p hp
    · simp only [if_neg h]
      exact ne_nil_of_mem_paginateGo buf rest (cur ++ [v]) (b + valBytes v) p

/-- Pages of a column are never empty. -/
theorem ne_nil_of_mem_paginate {buf : Nat} {vals : List (Option String)}
    {p : List (Option String)} (hp : p ∈ paginate buf vals) : p ≠ [] :=
  ne_nil_of_mem_paginateGo buf vals [] 0 p hp

/-- Deduplication is the identity on inputs whose label sets are already
pairwise distinct. -/
theorem dedupSeries_eq_self {l : List Series}
    (hnd : (l.map Series.lset).Nodup) : dedupSeries l = l := by
  suffices h : ∀ (n : Nat) (l : List Series), l.length = n →
      (l.map Series.lset).Nodup → dedupSeries l = l by
    exact h l.length l rfl hnd
  intro n
  induction n using Nat.strong_induction_on with
  | _ n ih =>
    intro l hn hnd
    match l with
    | [] => simp [dedupSeries]
    | s :: rest =>
      simp only [List.map_cons, List.nodup_cons, List.mem_map] at hnd
      obtain ⟨hnotin, hrest⟩ := hnd
      have hne : ∀ t ∈ rest, ¬(t.lset = s.lset) := by
        intro t ht heq
        exact hnotin ⟨t, ht, heq⟩
      have hfilter₁ : rest.filter (fun t => decide (t.lset = s.lset)) = [] := by
        rw [List.filter_eq_nil_iff]
        intro t ht
        simp [hne t ht]
      have hfilter₂ : rest.filter (fun t => !decide (t.lset = s.lset)) = rest := by
        rw [List.filter_eq_self]
        intro t ht
        simp [hne t ht]
      rw [dedupSeries, hfilter₁, hfilter₂]
      have hrec : dedupSeries rest = rest := by
        have hlen : rest.length < n := by
          subst hn
          simp
        exact ih _ hlen _ rfl hrest
      simp [hrec]

/-- The rows the converter sorts are pairwise ordered by the configured
comparison. -/
theorem convert_rows_pairwise (sortBy : List String) (l : List Series) :
    (l.mergeSort (seriesLe sortBy)).Pairwise (fun a b => seriesLe sortBy a b = true) :=
  List.sorted_mergeSort
    (fun a b c => seriesLe_trans sortBy a b c)
    (fun a b => seriesLe_total sortBy a b) l

/-- In a list of nonempty pages whose concatenation is pairwise ordered,
the page minima are non-decreasing. -/
theorem chain_pageMin {R : Option String → Option String → Prop}
    (hR : ∀ v w, R v w → cellStr v ≤ cellStr w) :
    ∀ (pages : List (List (Option String))),
      (∀ p ∈ pages, p ≠ []) → pages.flatten.Pairwise R →
      (pages.map pageMin).Chain' (· ≤ ·)
  | [], _, _ => by simp
  | [p], _, _ => by simp
  | p :: q :: rest, hne, hpw => by
    rw [List.map_cons, List.map_cons, List.chain'_cons]
    constructor
    · have hcross : ∀ v ∈ p, ∀ w ∈ q, R v w := by
        rw [List.flatten_cons, List.pairwise_append] at hpw
        intro v hv w hw
        exact hpw.2.2 v hv w (List.mem_flatten_of_mem (List.mem_cons_self _ _) hw)
      obtain ⟨v₀, hv₀, hv₀eq⟩ := pageMin_mem (hne p (List.mem_cons_self _ _))
      obtain ⟨w₀, hw₀, hw₀eq⟩ :=
        pageMin_mem (hne q (List.mem_cons_of_mem _ (List.mem_cons_self _ _)))
      rw [← hv₀eq, ← hw₀eq]
      exact hR _ _ (hcross v₀ hv₀ w₀ hw₀)
    · rw [← List.map_cons]
      apply chain_pageMin hR (q :: rest)
      · intro r hr
        exact hne r (List.mem_cons_of_mem _ hr)
      · rw [List.flatten_cons, List.pairwise_append] at hpw
        exact hpw.2.1

/-- In a list of nonempty pages whose concatenation is pairwise ordered,
the page maxima are non-decreasing. -/
theorem chain_pageMax {R : Option String → Option String → Prop}
    (hR : ∀ v w, R v w → cellStr v ≤ cellStr w) :
    ∀ (pages : List (List (Option String))),
      (∀ p ∈ pages, p ≠ []) → pages.flatten.Pairwise R →
      (pages.map pageMax).Chain' (· ≤ ·)
  | [], _, _ => by simp
  | [p], _, _ => by simp
  | p :: q :: rest, hne, hpw => by
    rw [List.map_cons, List.map_cons, List.chain'_cons]
    constructor
    · have hcross : ∀ v ∈ p, ∀ w ∈ q, R v w := by
        rw [List.flatten_cons, List.pairwise_append] at hpw
        intro v hv w hw
        exact hpw.2.2 v hv w (List.mem_flatten_of_mem (List.mem_cons_self _ _) hw)
      obtain ⟨v₀, hv₀, hv₀eq⟩ := pageMax_mem (hne p (List.mem_cons_self _ _))
      obtain ⟨w₀, hw₀, hw₀eq⟩ :=
        pageMax_mem (hne q (List.mem_cons_of_mem _ (List.mem_cons_self _ _)))
      rw [← hv₀eq, ← hw₀eq]
      exact hR _ _ (hcross v₀ hv₀ w₀ hw₀)
    · rw [← List.map_cons]
      apply chain_pageMax hR (q :: rest)
      · intro r hr
        exact hne r (List.mem_cons_of_mem _ hr)
      · rw [List.flatten_cons, List.pairwise_append] at hpw
        exact hpw.2.1

/-!
Helper lemmas for the end-to-end conversion facts.
-/

theorem chunkList_ne_nil {k : Nat} (hk : k ≠ 0) {l : List α} (hl : l ≠ []) :
    chunkList k l = l.take k :: chunkList k (l.drop k) := by
  match l with
  | [] => exact absurd rfl hl
  | x :: xs => exact chunkList_cons hk x xs

/-- A list of exactly twice the chunk size splits into two full chunks. -/
theorem chunkList_two_chunks {k : Nat} (hk : k ≠ 0) {l : List α}
    (h : l.length = 2 * k) : chunkList k l = [l.take k, l.drop k] := by
  have hl : l ≠ [] := by
    intro hnil
    rw [hnil] at h
    simp at h
    omega
  rw [chunkList_ne_nil hk hl]
  have hdroplen : (l.drop k).length = k := by
    simp [List.length_drop, h]
    omega
  have hdropne : l.drop k ≠ [] := by
    intro hnil
    rw [hnil] at hdroplen
    simp at hdroplen
    omega
  rw [chunkList_ne_nil hk hdropne]
  have htake : (l.drop k).take k = l.drop k :=
    List.take_of_length_le (by rw [hdroplen])
  have hdrop2 : (l.drop k).drop k = [] :=
    List.drop_eq_nil_of_le (by rw [hdroplen])
  rw [htake, hdrop2]
  simp [chunkList]

/-- Both files of a shard hold exactly the shard's rows, whatever the
row-group boundaries. -/
theorem sum_map_length_chunkList (k : Nat) (l : List α) :
    ((chunkList k l).map List.length).sum = l.length := by
  rw [← List.length_flatten, chunkList_flatten]

theorem mkShardFiles_numRows (opts : ConvertOpts) (rows : List Series) :
    (mkShardFiles opts rows).labelFile.numRows = rows.length ∧
      (mkShardFiles opts rows).chunkFile.numRows = rows.length := by
  constructor
  · simp only [mkShardFiles, LabelFile.numRows, List.map_map, Function.comp_def,
      List.length_map]
    exact sum_map_length_chunkList _ _
  · simp only [mkShardFiles, ChunkFile.numRows, List.map_map, Function.comp_def,
      List.length_map]
    exact sum_map_length_chunkList _ _

theorem filterMap_meta_shardEntries (n : String) :
    ∀ (l : List Nat),
      (l.flatMap (fun i => [BucketEntry.labelFile n i, BucketEntry.chunkFile n i])).filterMap
        (fun e => match e with | .metaFile m => some m | _ => none) = []
  | [] => by simp
  | i :: is => by
    simp only [List.flatMap_cons, List.filterMap_append]
    rw [filterMap_meta_shardEntries n is]
    simp

/-- Converting into an empty bucket and then discovering yields exactly the
one Meta the conversion committed. -/
theorem discoveredMetas_single (out : ConvertOutput) :
    discoveredMetas (writeConvertOutput out []) = [out.meta] := by
  simp only [discoveredMetas, writeConvertOutput, List.nil_append, List.filterMap_append]
  rw [filterMap_meta_shardEntries]
  simp

/-- The sorted row list of the reference conversion. -/
def testSorted : List Series := testInput.mergeSort (seriesLe ["__name__"])

theorem testSorted_length : testSorted.length = 1000 := by
  simp [testSorted, testInput]

/-- Shape of the reference conversion: one Meta naming the day, two shards
holding the first and second 500 sorted rows. -/
theorem convert_test_eq :
    convert 0 testOpts testInput =
      { meta := { name := "meta-" ++ natToStr 0, shards := 2 }
        shardFiles := [mkShardFiles testOpts (testSorted.take 500),
                       mkShardFiles testOpts (testSorted.drop 500)] } := by
  have hdedup : dedupSeries testInput = testInput :=
    dedupSeries_eq_self testInput_lset_nodup
  have hsize : testOpts.shardSize = 500 := rfl
  have hchunk : chunkList 500 testSorted = [testSorted.take 500, testSorted.drop 500] :=
    chunkList_two_chunks (by omega) (by rw [testSorted_length])
  simp only [convert, hdedup, hsize]
  rw [show testInput.mergeSort (seriesLe testOpts.sortBy) = testSorted from rfl]
  rw [hchunk]
  rfl

theorem testSorted_take_length : (testSorted.take 500).length = 500 := by
  simp [List.length_take, testSorted_length]

theorem testSorted_drop_length : (testSorted.drop 500).length = 500 := by
  simp [List.length_drop, testSorted_length]

/-- The conversion of a single series produces a single shard holding it. -/
theorem convert_single_eq :
    convert 0 testOpts [testSeries 0] =
      { meta := { name := "meta-" ++ natToStr 0, shards := 1 }
        shardFiles := [mkShardFiles testOpts [testSeries 0]] } := by
  have hdedup : dedupSeries [testSeries 0] = [testSeries 0] := by
    rw [dedupSeries]
    simp [dedupSeries]
  have hsort : ([testSeries 0] : List Series).mergeSort (seriesLe testOpts.sortBy) =
      [testSeries 0] := List.mergeSort_singleton _
  have hchunk : chunkList testOpts.shardSize [testSeries 0] = [[testSeries 0]] := by
    rw [show testOpts.shardSize = 500 from rfl]
    rw [chunkList_cons (by omega) (testSeries 0) []]
    rw [List.take_of_length_le (by simp), List.drop_eq_nil_of_le (by simp)]
    simp [chunkList]
  simp only [convert, hdedup, hsort, hchunk]
  rfl

theorem chunkList_singleton {k : Nat} (hk : k ≠ 0) (a : α) :
    chunkList k [a] = [[a]] := by
  rw [chunkList_cons hk a []]
  rw [List.take_of_length_le (by simp; omega), List.drop_eq_nil_of_le (by simp; omega)]
  simp [chunkList]

/-- An HTTP request, reduced to the parts a handler could inspect. -/
structure HTTPRequest where
  method : String
  target : String

/-- An HTTP response: status code and body. -/
structure HTTPResponse where
  status : Nat
  body : String
deriving DecidableEq

/-- Embedding of the health endpoint handler registered in `setupInternalAPI`:
writes status 200 and body "OK", ignoring the request. -/
def healthyHandler (_ : HTTPRequest) : HTTPResponse :=
  { status := 200, body := "OK" }

/-- Embedding of the readiness endpoint handler registered in `setupInternalAPI`:
writes status 200 and body "OK", ignoring the request. -/
def readyHandler (_ : HTTPRequest) : HTTPResponse :=
  { status := 200, body := "OK" }

/-!
Claim theorems.
-/

/-- C1: converting one source block holding the reference test's 1,000
distinct synthetic series for a given day, with sort key `__name__`, target
shard count 2 (250-row row groups, 2 row groups per shard) and a small
label-page buffer, produces exactly one Meta, that Meta has `Shards = 2`,
each shard's label file and chunk file have equal row counts, and the total
row count across both shards is 1,000. -/
theorem c1_end_to_end_conversion :
    discoveredMetas (writeConvertOutput (convert 0 testOpts testInput) []) =
        [(convert 0 testOpts testInput).meta] ∧
      (convert 0 testOpts testInput).meta.shards = 2 ∧
      (convert 0 testOpts testInput).shardFiles.map
          (fun sh => (sh.labelFile.numRows, sh.chunkFile.numRows)) =
        [(500, 500), (500, 500)] ∧
      ((convert 0 testOpts testInput).shardFiles.map
          (fun sh => sh.labelFile.numRows)).sum = 1000 := by
  refine ⟨discoveredMetas_single _, ?_, ?_, ?_⟩
  · rw [convert_test_eq]
  · rw [convert_test_eq]
    simp only [List.map_cons, List.map_nil]
    rw [(mkShardFiles_numRows testOpts (testSorted.take 500)).1,
      (mkShardFiles_numRows testOpts (testSorted.take 500)).2,
      (mkShardFiles_numRows testOpts (testSorted.drop 500)).1,
      (mkShardFiles_numRows testOpts (testSorted.drop 500)).2,
      testSorted_take_length, testSorted_drop_length]
  · rw [convert_test_eq]
    simp only [List.map_cons, List.map_nil]
    rw [(mkShardFiles_numRows testOpts (testSorted.take 500)).1,
      (mkShardFiles_numRows testOpts (testSorted.drop 500)).1,
      testSorted_take_length, testSorted_drop_length]
    rfl

/-- C2: for every conversion and every shard of its output, the label file
and the chunk file written for that shard hold the same number of rows. -/
theorem c2_label_chunk_alignment (day : Nat) (opts : ConvertOpts) (input : List Series) :
    ∀ sh ∈ (convert day opts input).shardFiles,
      sh.labelFile.numRows = sh.chunkFile.numRows := by
  intro sh hsh
  simp only [convert, List.mem_map] at hsh
  obtain ⟨rows, hrows, rfl⟩ := hsh
  rw [(mkShardFiles_numRows opts rows).1, (mkShardFiles_numRows opts rows).2]

/-- Witness for C2: the alignment at the single-series conversion. -/
theorem c2_label_chunk_alignment_witness :
    (mkShardFiles testOpts [testSeries 0]).labelFile.numRows =
      (mkShardFiles testOpts [testSeries 0]).chunkFile.numRows := by
  apply c2_label_chunk_alignment 0 testOpts [testSeries 0]
  rw [convert_single_eq]
  exact List.mem_singleton.mpr rfl

/-- C3: in every converted label file and every row group of the sort-key
column, values are non-decreasing within each page, and when the column has
more than one page in the row group its page minimum and maximum statistics
are non-decreasing across the pages. -/
theorem c3_sort_key_monotone (day : Nat) (opts : ConvertOpts) (input : List Series)
    (name : String) (rest : List String) (hsort : opts.sortBy = name :: rest) :
    ∀ sh ∈ (convert day opts input).shardFiles,
      ∀ rg ∈ sh.labelFile.rowGroups,
        (∀ p ∈ paginate opts.pageBufferSize (rg.rows.map (lookupLabel name)),
            p.Chain' (fun v w => cellStr v ≤ cellStr w)) ∧
          (1 < (paginate opts.pageBufferSize (rg.rows.map (lookupLabel name))).length →
            ((paginate opts.pageBufferSize (rg.rows.map (lookupLabel name))).map
                pageMin).Chain' (· ≤ ·) ∧
              ((paginate opts.pageBufferSize (rg.rows.map (lookupLabel name))).map
                pageMax).Chain' (· ≤ ·)) := by
  intro sh hsh rg hrg
  simp only [convert, List.mem_map] at hsh
  obtain ⟨rows, hrows, rfl⟩ := hsh
  simp only [mkShardFiles, List.mem_map] at hrg
  obtain ⟨rgrows, hrgrows, rfl⟩ := hrg
  have hargs : (({ rows := rgrows.map Series.lset } : LabelRowGroup)).rows.map
      (lookupLabel name) = rgrows.map (fun s => lookupLabel name s.lset) := by
    simp [List.map_map, Function.comp_def]
  rw [hargs]
  have hsub : rgrows.Sublist ((dedupSeries input).mergeSort (seriesLe opts.sortBy)) :=
    (sublist_of_mem_chunkList hrgrows).trans (sublist_of_mem_chunkList hrows)
  have hpw : rgrows.Pairwise (fun a b => seriesLe opts.sortBy a b = true) :=
    (convert_rows_pairwise opts.sortBy (dedupSeries input)).sublist hsub
  have hpv : (rgrows.map (fun s => lookupLabel name s.lset)).Pairwise
      (fun v w => cellStr v ≤ cellStr w) := by
    apply hpw.map
    intro a b hab
    rw [hsort] at hab
    exact seriesLe_head hab
  have hfl : (paginate opts.pageBufferSize
      (rgrows.map (fun s => lookupLabel name s.lset))).flatten.Pairwise
      (fun v w => cellStr v ≤ cellStr w) := by
    rw [paginate_flatten]
    exact hpv
  constructor
  · intro p hp
    exact (hfl.sublist (List.sublist_flatten_of_mem hp)).chain'
  · intro _
    exact ⟨chain_pageMin (fun v w h => h) _
        (fun p hp => ne_nil_of_mem_paginate hp) hfl,
      chain_pageMax (fun v w h => h) _
        (fun p hp => ne_nil_of_mem_paginate hp) hfl⟩

/-- Witness for C3: the single page of the single-series conversion is a
non-decreasing chain. -/
theorem c3_sort_key_monotone_witness :
    List.Chain' (fun v w => cellStr v ≤ cellStr w) [some ("foo_" ++ natToStr 0)] := by
  have hsh : mkShardFiles testOpts [testSeries 0] ∈
      (convert 0 testOpts [testSeries 0]).shardFiles := by
    rw [convert_single_eq]
    exact List.mem_singleton.mpr rfl
  have hrg : ({ rows := [(testSeries 0).lset] } : LabelRowGroup) ∈
      (mkShardFiles testOpts [testSeries 0]).labelFile.rowGroups := by
    simp only [mkShardFiles]
    rw [show testOpts.rowGroupSize = 250 from rfl, chunkList_singleton (by omega)]
    exact List.mem_singleton.mpr rfl
  have h := (c3_sort_key_monotone 0 testOpts [testSeries 0] "__name__" [] rfl
      (mkShardFiles testOpts [testSeries 0]) hsh
      ({ rows := [(testSeries 0).lset] } : LabelRowGroup) hrg).1
  apply h
  decide

/-- C4: if a component's first synchronous run fails (initial discovery,
initial TSDB discovery, initial meta-filter update, or initial sync), the
corresponding setup function returns the wrapped error instead of
registering the periodic loop. -/
theorem c4_bootstrap_failure_fatal (ctx : Ctx) (interval : Nat)
    (work : Nat → Ctx → Option Err) (e : Err)
    (h : work 0 (bootstrapCtx ctx interval) = some e) :
    setupDiscovery ctx interval work =
        .error ("unable to run initial discovery: " ++ e) ∧
      setupTSDBDiscovery ctx interval work =
        .error ("unable to run initial discovery: " ++ e) ∧
      setupMetaFilter ctx "thanos-backfill" interval work =
        .error ("unable to initialize thanos-backfill meta filter: " ++ e) ∧
      setupSyncer ctx interval work =
        .error ("unable to run initial sync: " ++ e) := by
  refine ⟨?_, ?_, ?_, ?_⟩ <;>
    simp [setupDiscovery, setupTSDBDiscovery, setupMetaFilter, setupSyncer, h]

/-- Witness for C4 at a concretely failing bootstrap run. -/
theorem c4_bootstrap_failure_fatal_witness :
    setupDiscovery background 5 (fun _ _ => some "boom") =
        .error ("unable to run initial discovery: " ++ "boom") ∧
      setupTSDBDiscovery background 5 (fun _ _ => some "boom") =
        .error ("unable to run initial discovery: " ++ "boom") ∧
      setupMetaFilter background "thanos-backfill" 5 (fun _ _ => some "boom") =
        .error ("unable to initialize thanos-backfill meta filter: " ++ "boom") ∧
      setupSyncer background 5 (fun _ _ => some "boom") =
        .error ("unable to run initial sync: " ++ "boom") :=
  c4_bootstrap_failure_fatal background 5 (fun _ _ => some "boom") "boom" rfl

/-- C5: once the bootstrap run succeeded, a failing later iteration of any
of the four periodic loops only logs a warning; the loop body still returns
nil, so the error does not propagate out of the loop. -/
theorem c5_cycle_failure_nonfatal (ctx : Ctx) (interval : Nat)
    (work : Nat → Ctx → Option Err) (n : Nat) (e : Err)
    (hboot : work 0 (bootstrapCtx ctx interval) = none)
    (hfail : work (n + 1) (withTimeout background interval) = some e) :
    (∃ loop, setupDiscovery ctx interval work = .ok loop ∧
        (loop.iterate n).warned = some e ∧ (loop.iterate n).returned = none) ∧
      (∃ loop, setupTSDBDiscovery ctx interval work = .ok loop ∧
        (loop.iterate n).warned = some e ∧ (loop.iterate n).returned = none) ∧
      (∃ loop, setupMetaFilter ctx "thanos-backfill" interval work =
          .ok { choice := .thanosBackfill, updateLoop := some loop } ∧
        (loop.iterate n).warned = some e ∧ (loop.iterate n).returned = none) ∧
      (∃ loop, setupSyncer ctx interval work = .ok loop ∧
        (loop.iterate n).warned = some e ∧ (loop.iterate n).returned = none) := by
  refine
    ⟨⟨{ interval := interval, iterate := fun m => periodicIter interval (work (m + 1)) },
        ?_, ?_, rfl⟩,
      ⟨{ interval := interval, iterate := fun m => periodicIter interval (work (m + 1)) },
        ?_, ?_, rfl⟩,
      ⟨{ interval := interval, iterate := fun m => periodicIter interval (work (m + 1)) },
        ?_, ?_, rfl⟩,
      ⟨{ interval := interval, iterate := fun m => periodicIter interval (work (m + 1)) },
        ?_, ?_, rfl⟩⟩ <;>
    simp [setupDiscovery, setupTSDBDiscovery, setupMetaFilter, setupSyncer,
      periodicIter, hboot, hfail]

/-- Witness for C5 at a run that succeeds at bootstrap and fails afterwards. -/
theorem c5_cycle_failure_nonfatal_witness :
    ∃ loop, setupDiscovery background 5
        (fun k _ => if k = 0 then none else some "err") = .ok loop ∧
      (loop.iterate 0).warned = some "err" ∧ (loop.iterate 0).returned = none :=
  (c5_cycle_failure_nonfatal background 5
    (fun k _ => if k = 0 then none else some "err") 0 "err" rfl rfl).1

/-- C8: every iteration of each periodic loop, including the bootstrap
iteration, runs under a context whose timeout equals that loop's configured
refresh interval. -/
theorem c8_iteration_timeout (ctx : Ctx) (interval : Nat)
    (work : Nat → Ctx → Option Err) (dloop tloop mloop sloop : StartedLoop)
    (n : Nat)
    (hctx : ctx.timeout = none)
    (hd : setupDiscovery ctx interval work = .ok dloop)
    (ht : setupTSDBDiscovery ctx interval work = .ok tloop)
    (hm : setupMetaFilter ctx "thanos-backfill" interval work =
      .ok { choice := .thanosBackfill, updateLoop := some mloop })
    (hs : setupSyncer ctx interval work = .ok sloop) :
    (bootstrapCtx ctx interval).timeout = some interval ∧
      (dloop.iterate n).ctxTimeout = some interval ∧
      (tloop.iterate n).ctxTimeout = some interval ∧
      (mloop.iterate n).ctxTimeout = some interval ∧
      (sloop.iterate n).ctxTimeout = some interval := by
  have hboot : (bootstrapCtx ctx interval).timeout = some interval := by
    simp [bootstrapCtx, withTimeout, hctx]
  refine ⟨hboot, ?_, ?_, ?_, ?_⟩
  · rcases hw : work 0 (bootstrapCtx ctx interval) with _ | e
    · rw [setupDiscovery] at hd
      rw [hw] at hd
      simp only [Except.ok.injEq] at hd
      rw [← hd]
      rfl
    · rw [setupDiscovery] at hd
      rw [hw] at hd
      simp at hd
  · rcases hw : work 0 (bootstrapCtx ctx interval) with _ | e
    · rw [setupTSDBDiscovery] at ht
      rw [hw] at ht
      simp only [Except.ok.injEq] at ht
      rw [← ht]
      rfl
    · rw [setupTSDBDiscovery] at ht
      rw [hw] at ht
      simp at ht
  · rcases hw : work 0 (bootstrapCtx ctx interval) with _ | e
    · rw [setupMetaFilter] at hm
      rw [hw] at hm
      simp only [Except.ok.injEq, MetaFilterResult.mk.injEq, Option.some.injEq] at hm
      rw [← hm.2]
      rfl
    · rw [setupMetaFilter] at hm
      rw [hw] at hm
      simp at hm
  · rcases hw : work 0 (bootstrapCtx ctx interval) with _ | e
    · rw [setupSyncer] at hs
      rw [hw] at hs
      simp only [Except.ok.injEq] at hs
      rw [← hs]
      rfl
    · rw [setupSyncer] at hs
      rw [hw] at hs
      simp at hs

/-- Witness for C8 at an always-succeeding work function. -/
theorem c8_iteration_timeout_witness :
    (bootstrapCtx background 5).timeout = some 5 ∧
      (({ interval := 5,
          iterate := fun n => periodicIter 5 ((fun _ _ => none) (n + 1)) } :
        StartedLoop).iterate 0).ctxTimeout = some 5 ∧
      (({ interval := 5,
          iterate := fun n => periodicIter 5 ((fun _ _ => none) (n + 1)) } :
        StartedLoop).iterate 0).ctxTimeout = some 5 ∧
      (({ interval := 5,
          iterate := fun n => periodicIter 5 ((fun _ _ => none) (n + 1)) } :
        StartedLoop).iterate 0).ctxTimeout = some 5 ∧
      (({ interval := 5,
          iterate := fun n => periodicIter 5 ((fun _ _ => none) (n + 1)) } :
        StartedLoop).iterate 0).ctxTimeout = some 5 :=
  c8_iteration_timeout background 5 (fun _ _ => none) _ _ _ _ 0 rfl rfl rfl rfl rfl

/-- C6: an unknown object-storage backend name or an unknown meta-filter
policy name makes the corresponding setup function return an error at
startup. -/
theorem c6_unknown_config_rejected (storage filterType : String) (ctx : Ctx)
    (interval : Nat) (update : Nat → Ctx → Option Err)
    (hs1 : upper storage ≠ "FILESYSTEM") (hs2 : upper storage ≠ "S3")
    (hf1 : filterType ≠ "all-metas") (hf2 : filterType ≠ "thanos-backfill") :
    setupBucket storage = .error ("unknown bucket type: " ++ upper storage) ∧
      setupMetaFilter ctx filterType interval update =
        .error ("unknown meta filter type: " ++ filterType) := by
  constructor
  · rw [setupBucket]
    split
    · simp_all
    · simp_all
    · rfl
  · simp [setupMetaFilter, hf1, hf2]

/-- Witness for C6 at an unknown backend and an unknown policy. -/
theorem c6_unknown_config_rejected_witness :
    setupBucket "gcs" = .error ("unknown bucket type: " ++ upper "gcs") ∧
      setupMetaFilter background "sometimes" 5 (fun _ _ => none) =
        .error ("unknown meta filter type: " ++ "sometimes") :=
  c6_unknown_config_rejected "gcs" "sometimes" background 5 (fun _ _ => none)
    (by decide) (by decide) (by decide) (by decide)

/-- C7: the accept-all meta filter is the identity on every discovered Meta
set, carries no external state (its setup registers no update loop), and
never fails. -/
theorem c7_accept_all_identity (ctx : Ctx) (interval : Nat)
    (update : Nat → Ctx → Option Err) :
    setupMetaFilter ctx "all-metas" interval update =
        .ok { choice := .allMetas, updateLoop := none } ∧
      allMetasFilter = fun metas => metas :=
  ⟨rfl, rfl⟩

/-- C9: the backend name is matched case-insensitively: any spelling whose
upper-casing is a known provider selects the same backend as the upper-case
spelling, and only names not matching any known provider up to case are
rejected. -/
theorem c9_backend_case_insensitive (s : String) :
    (upper s = "FILESYSTEM" →
        setupBucket s = .ok .filesystem ∧ setupBucket "FILESYSTEM" = .ok .filesystem) ∧
      (upper s = "S3" → setupBucket s = .ok .s3 ∧ setupBucket "S3" = .ok .s3) ∧
      (upper s ≠ "FILESYSTEM" → upper s ≠ "S3" →
        setupBucket s = .error ("unknown bucket type: " ++ upper s)) := by
  refine ⟨?_, ?_, ?_⟩
  · intro h
    constructor
    · rw [setupBucket, h]
      rfl
    · rfl
  · intro h
    constructor
    · rw [setupBucket, h]
      rfl
    · rfl
  · intro h1 h2
    rw [setupBucket]
    split
    · simp_all
    · simp_all
    · rfl

/-- Witness for C9 at lower-case and unknown backend names. -/
theorem c9_backend_case_insensitive_witness :
    (setupBucket "s3" = .ok .s3 ∧ setupBucket "S3" = .ok .s3) ∧
      (setupBucket "filesystem" = .ok .filesystem ∧
        setupBucket "FILESYSTEM" = .ok .filesystem) ∧
      setupBucket "minio" = .error ("unknown bucket type: " ++ upper "minio") :=
  ⟨(c9_backend_case_insensitive "s3").2.1 (by decide),
    (c9_backend_case_insensitive "filesystem").1 (by decide),
    (c9_backend_case_insensitive "minio").2.2 (by decide) (by decide)⟩

/-- C10: the internal API's health and readiness handlers return status 200
with body "OK" for every request, unconditionally. -/
theorem c10_health_ready_unconditional :
    healthyHandler = (fun _ => { status := 200, body := "OK" }) ∧
      readyHandler = (fun _ => { status := 200, body := "OK" }) :=
  ⟨rfl, rfl⟩

end PG
